import Mathlib

/-!
Verification development for the Hill5 analytic infall model
(`pyspeckit/spectrum/models/hill5infall.py`).

Floating-point values are modelled by the type `F`: a finite value is an
exact real number (`F.fin`), and the IEEE special values are a signed
infinity (`F.inf`, with `pos = true` for `+inf`) and `F.nan`.  Arithmetic
on `F` follows the IEEE-754 special-value propagation rules (`nan`
absorbs, `0/0 = nan`, `x/0 = ±inf` for `x ≠ 0`, `inf/inf = nan`,
`inf * 0 = nan`, `exp(-inf) = 0`, `exp(+inf) = +inf`, comparisons with
`nan` are false) with exact real arithmetic on finite values; rounding,
overflow and signed zeros are not modelled.  Numpy boolean arrays that
the source multiplies with float arrays are modelled as the floats
`0`/`1` (`fgtf`, `fltf`).
-/

open Classical

namespace Hill5

/-- A model of an IEEE double: a finite (exact) real, a signed infinity,
or a not-a-number value. -/
inductive F where
  | fin (x : ℝ)
  | inf (pos : Bool)
  | nan

/-- IEEE negation. -/
noncomputable def fneg : F → F
  | F.fin x => F.fin (-x)
  | F.inf b => F.inf (!b)
  | F.nan => F.nan

/-- IEEE addition. -/
noncomputable def fadd : F → F → F
  | F.nan, _ => F.nan
  | _, F.nan => F.nan
  | F.inf a, F.inf b => if a = b then F.inf a else F.nan
  | F.inf a, F.fin _ => F.inf a
  | F.fin _, F.inf b => F.inf b
  | F.fin x, F.fin y => F.fin (x + y)

/-- IEEE subtraction, as `x + (-y)`. -/
noncomputable def fsub (x y : F) : F := fadd x (fneg y)

/-- IEEE multiplication (`inf * 0 = nan`). -/
noncomputable def fmul : F → F → F
  | F.nan, _ => F.nan
  | _, F.nan => F.nan
  | F.inf a, F.inf b => F.inf (a == b)
  | F.inf a, F.fin y => if y = 0 then F.nan else if 0 < y then F.inf a else F.inf (!a)
  | F.fin x, F.inf b => if x = 0 then F.nan else if 0 < x then F.inf b else F.inf (!b)
  | F.fin x, F.fin y => F.fin (x * y)

/-- IEEE division (`0/0 = nan`, `x/0 = ±inf`, `inf/inf = nan`,
`fin/inf = 0`); the real zero is treated as `+0`. -/
noncomputable def fdiv : F → F → F
  | F.nan, _ => F.nan
  | _, F.nan => F.nan
  | F.inf _, F.inf _ => F.nan
  | F.fin _, F.inf _ => F.fin 0
  | F.inf a, F.fin y => if y = 0 then F.inf a else if 0 < y then F.inf a else F.inf (!a)
  | F.fin x, F.fin y =>
      if y = 0 then (if x = 0 then F.nan else if 0 < x then F.inf true else F.inf false)
      else F.fin (x / y)

/-- IEEE exponential (`np.exp`). -/
noncomputable def fexp : F → F
  | F.fin x => F.fin (Real.exp x)
  | F.inf true => F.inf true
  | F.inf false => F.fin 0
  | F.nan => F.nan

/-- Squaring, modelling the numpy `**2`. -/
noncomputable def fsq (x : F) : F := fmul x x

/-- The numpy comparison `x > c` (a boolean) cast to a float `0`/`1`;
comparisons with `nan` are false. -/
noncomputable def fgtf : F → ℝ → F
  | F.fin x, c => if c < x then F.fin 1 else F.fin 0
  | F.inf b, _ => if b then F.fin 1 else F.fin 0
  | F.nan, _ => F.fin 0

/-- The numpy comparison `x < c` cast to a float `0`/`1`. -/
noncomputable def fltf : F → ℝ → F
  | F.fin x, c => if x < c then F.fin 1 else F.fin 0
  | F.inf b, _ => if b then F.fin 0 else F.fin 1
  | F.nan, _ => F.fin 0

/-- The test `x != x`, true exactly of `nan` (`np.isnan`). -/
def isnanb : F → Bool
  | F.nan => true
  | _ => false

/-- The in-place fix `arr[arr != arr] = 1.0`: replace a `nan` by `1.0`. -/
def fixnan : F → F
  | F.nan => F.fin 1
  | y => y

/-- The IEEE strict order: comparisons involving `nan` are false,
`-inf < fin x < +inf`. -/
def fltF : F → F → Prop
  | F.nan, _ => False
  | _, F.nan => False
  | F.fin a, F.fin b => a < b
  | F.fin _, F.inf b => b = true
  | F.inf a, F.fin _ => a = false
  | F.inf a, F.inf b => a = false ∧ b = true

/-- Planck's constant in erg·s, the literal `H` of `jfunc`. -/
noncomputable def H : ℝ := 6.6260755e-27

/-- Boltzmann's constant in erg/K, the literal `K` of `jfunc`. -/
noncomputable def K : ℝ := 1.380658e-16

/-- The (unused) literal `NSIG` of `jfunc`. -/
noncomputable def NSIG : ℝ := 2.0

/-- `jfunc(t, nu)`: `to = H*nu/K; return to/(np.exp(to/t)-1.0)`.
The temperature `t` and frequency `nu` are finite inputs; no bounds
check is performed on `t`. -/
noncomputable def jfunc (t nu : ℝ) : F :=
  let j := H * nu / K
  fdiv (F.fin j) (fsub (fexp (fdiv (F.fin j) (F.fin t))) (F.fin 1))

/-- The real value computed by `jfunc` for `to = c ≠ 0`: the IEEE
evaluation gives `c/(exp(c/t)-1)` for `t ≠ 0`, and for `t = 0` the
division `c/0 = ±inf` collapses the expression to `0` (for `c > 0`,
via `c/(exp(+inf)-1) = c/inf`) or to `-c` (for `c < 0`, via
`c/(exp(-inf)-1) = c/(-1)`). -/
noncomputable def jr (c t : ℝ) : ℝ :=
  if t = 0 then (if 0 < c then 0 else -c) else c / (Real.exp (c / t) - 1)

/-- One element of the profile `tau*np.exp(-((velocity_array-vc)/sigma)**2 / 2.0)`
(line 44/45 of the source, with centre `vc = vf` or `vc = vr`). -/
noncomputable def taufEl (tau vc sigma v : ℝ) : F :=
  fmul (F.fin tau)
    (fexp (fneg (fdiv (fsq (fdiv (F.fin (v - vc)) (F.fin sigma))) (F.fin 2))))

/-- One element of `(1-np.exp(-tauf))/tauf * (tauf>1e-4) + (tauf < 1e-4)`
(line 47/48 of the source), before the `nan` fix of line 49/50. -/
noncomputable def subRaw (x : F) : F :=
  fadd (fmul (fdiv (fsub (F.fin 1) (fexp (fneg x))) x) (fgtf x 1e-4)) (fltf x 1e-4)

/-- The full escape-probability substitution applied to one profile
element: lines 47–50 of the source (`subRaw` followed by the
`subf[subf != subf] = 1.0` replacement). -/
noncomputable def subElem (x : F) : F := fixnan (subRaw x)

/-- One element of the factor `(subf-np.exp(-tauf)*subr)` of line 53,
for the sample `p = (v, freq)` (km/s view, Hz view). -/
noncomputable def factorEl (tau v_lsr v_infall sigma : ℝ) (p : ℝ × ℝ) : F :=
  let vf := v_lsr + v_infall
  let vr := v_lsr - v_infall
  let tauf := taufEl tau vf sigma p.1
  let taur := taufEl tau vr sigma p.1
  fsub (subElem tauf) (fmul (fexp (fneg tauf)) (subElem taur))

/-- One element of `hill_array` (line 53 of the source). -/
noncomputable def hill5_elem (tau v_lsr v_infall sigma tpeak TBG : ℝ) (p : ℝ × ℝ) : F :=
  fmul (fsub (jfunc tpeak p.2) (jfunc TBG p.2)) (factorEl tau v_lsr v_infall sigma p)

/-- The array `hill_array` of line 53.  The independent-variable array
`xarr` is a list of samples, each carrying its two unit views
`(km/s, Hz)` of the same physical axis; all numpy array expressions of
the source are element-wise, so `hill_array` is a map over the samples. -/
noncomputable def hillArray (xarr : List (ℝ × ℝ)) (tau v_lsr v_infall sigma tpeak TBG : ℝ) :
    List F :=
  xarr.map (hill5_elem tau v_lsr v_infall sigma tpeak TBG)

/-- `hill5_model(xarr, tau, v_lsr, v_infall, sigma, tpeak, TBG=2.73)`:
computes `hill_array` and raises `ValueError("Hill5 model has a NAN")`
when `np.isnan(hill_array).any()`, otherwise returns the array
(lines 40–58 of the source). -/
noncomputable def hill5_model (xarr : List (ℝ × ℝ)) (tau v_lsr v_infall sigma tpeak TBG : ℝ) :
    Except String (List F) :=
  let hill_array := hillArray xarr tau v_lsr v_infall sigma tpeak TBG
  if hill_array.any isnanb then Except.error "Hill5 model has a NAN"
  else Except.ok hill_array

/-- A per-parameter guess-generation hint: a constant seed or a
data-feature tag.  Modelled from the spec: the host framework's
guess machinery is not under `src/`. -/
inductive GuessHint where
  | const (x : ℝ)
  | tag (s : String)

/-- Modelled from the spec: the `model.SpectralModel` descriptor class
lives in the host fitting framework (`pyspeckit.spectrum.models.model`),
which is not under `src/`; per §4.3 of the spec it is a static record of
the constructor arguments (evaluator, parameter count, names, bound
flags, bound values, TeX labels, fit unit, guess hints). -/
structure SpectralModel where
  modelfunc : List (ℝ × ℝ) → ℝ → ℝ → ℝ → ℝ → ℝ → ℝ → Except String (List F)
  npars : ℕ
  parnames : List String
  parlimited : List (Bool × Bool)
  parlimits : List (ℝ × ℝ)
  shortvarnames : List String
  fitunit : String
  guess_types : List GuessHint

/-- `hill5_fitter` (lines 77–84 of the source). -/
noncomputable def hill5_fitter : SpectralModel :=
  { modelfunc := hill5_model
    npars := 5
    parnames := ["tau", "v_lsr", "v_infall", "sigma", "tpeak"]
    parlimited := [(true, false), (false, false), (true, false), (true, false), (true, false)]
    parlimits := [(0, 0), (0, 0), (0, 0), (0, 0), (0, 0)]
    shortvarnames := ["\\tau", "v_{lsr}", "v_{infall}", "\\sigma", "T_{peak}"]
    fitunit := "km/s"
    guess_types := [GuessHint.const 1.0, GuessHint.tag "center", GuessHint.const 1.0,
      GuessHint.tag "width", GuessHint.tag "amplitude"] }

/-! ### Evaluation lemmas for the float model -/

@[simp] theorem fneg_fin (x : ℝ) : fneg (F.fin x) = F.fin (-x) := rfl

@[simp] theorem fneg_nan : fneg F.nan = F.nan := rfl

@[simp] theorem fneg_inf (b : Bool) : fneg (F.inf b) = F.inf (!b) := rfl

@[simp] theorem fadd_fin_fin (x y : ℝ) : fadd (F.fin x) (F.fin y) = F.fin (x + y) := rfl

@[simp] theorem fadd_nan_left (y : F) : fadd F.nan y = F.nan := by cases y <;> rfl

@[simp] theorem fadd_nan_right (x : F) : fadd x F.nan = F.nan := by cases x <;> rfl

@[simp] theorem fadd_inf_fin (b : Bool) (y : ℝ) : fadd (F.inf b) (F.fin y) = F.inf b := rfl

@[simp] theorem fadd_fin_inf (x : ℝ) (b : Bool) : fadd (F.fin x) (F.inf b) = F.inf b := rfl

@[simp] theorem fsub_fin_fin (x y : ℝ) : fsub (F.fin x) (F.fin y) = F.fin (x - y) := by
  simp [fsub, sub_eq_add_neg]

@[simp] theorem fsub_nan_left (y : F) : fsub F.nan y = F.nan := by cases y <;> rfl

@[simp] theorem fsub_nan_right (x : F) : fsub x F.nan = F.nan := by cases x <;> rfl

@[simp] theorem fsub_fin_inf (x : ℝ) (b : Bool) : fsub (F.fin x) (F.inf b) = F.inf (!b) := rfl

@[simp] theorem fsub_inf_fin (b : Bool) (y : ℝ) : fsub (F.inf b) (F.fin y) = F.inf b := rfl

@[simp] theorem fmul_fin_fin (x y : ℝ) : fmul (F.fin x) (F.fin y) = F.fin (x * y) := rfl

@[simp] theorem fmul_nan_left (y : F) : fmul F.nan y = F.nan := by cases y <;> rfl

@[simp] theorem fmul_nan_right (x : F) : fmul x F.nan = F.nan := by cases x <;> rfl

@[simp] theorem fexp_fin (x : ℝ) : fexp (F.fin x) = F.fin (Real.exp x) := rfl

@[simp] theorem fexp_nan : fexp F.nan = F.nan := rfl

@[simp] theorem fexp_inf_pos : fexp (F.inf true) = F.inf true := rfl

@[simp] theorem fexp_inf_neg : fexp (F.inf false) = F.fin 0 := rfl

@[simp] theorem fsq_fin (x : ℝ) : fsq (F.fin x) = F.fin (x * x) := rfl

@[simp] theorem fsq_nan : fsq F.nan = F.nan := rfl

@[simp] theorem fsq_inf (b : Bool) : fsq (F.inf b) = F.inf true := by
  cases b <;> simp [fsq, fmul]

theorem fdiv_fin_fin {y : ℝ} (x : ℝ) (h : y ≠ 0) :
    fdiv (F.fin x) (F.fin y) = F.fin (x / y) := by
  simp [fdiv, h]

@[simp] theorem fdiv_zero_zero : fdiv (F.fin 0) (F.fin 0) = F.nan := by simp [fdiv]

theorem fdiv_pos_zero {x : ℝ} (h : 0 < x) : fdiv (F.fin x) (F.fin 0) = F.inf true := by
  simp [fdiv, h, h.ne']

theorem fdiv_neg_zero {x : ℝ} (h : x < 0) : fdiv (F.fin x) (F.fin 0) = F.inf false := by
  simp [fdiv, h.ne, not_lt.mpr h.le]

@[simp] theorem fdiv_fin_inf (x : ℝ) (b : Bool) : fdiv (F.fin x) (F.inf b) = F.fin 0 := rfl

@[simp] theorem fdiv_inf_inf (a b : Bool) : fdiv (F.inf a) (F.inf b) = F.nan := rfl

@[simp] theorem fdiv_nan_left (y : F) : fdiv F.nan y = F.nan := by cases y <;> rfl

@[simp] theorem fdiv_nan_right (x : F) : fdiv x F.nan = F.nan := by cases x <;> rfl

theorem fgtf_fin_of_lt {x c : ℝ} (h : c < x) : fgtf (F.fin x) c = F.fin 1 := by
  simp [fgtf, h]

theorem fgtf_fin_of_not_lt {x c : ℝ} (h : ¬c < x) : fgtf (F.fin x) c = F.fin 0 := by
  simp [fgtf, h]

@[simp] theorem fgtf_nan (c : ℝ) : fgtf F.nan c = F.fin 0 := rfl

@[simp] theorem fgtf_inf_pos (c : ℝ) : fgtf (F.inf true) c = F.fin 1 := rfl

@[simp] theorem fgtf_inf_neg (c : ℝ) : fgtf (F.inf false) c = F.fin 0 := rfl

theorem fltf_fin_of_lt {x c : ℝ} (h : x < c) : fltf (F.fin x) c = F.fin 1 := by
  simp [fltf, h]

theorem fltf_fin_of_not_lt {x c : ℝ} (h : ¬x < c) : fltf (F.fin x) c = F.fin 0 := by
  simp [fltf, h]

@[simp] theorem fltf_nan (c : ℝ) : fltf F.nan c = F.fin 0 := rfl

@[simp] theorem fltf_inf_pos (c : ℝ) : fltf (F.inf true) c = F.fin 0 := rfl

@[simp] theorem fltf_inf_neg (c : ℝ) : fltf (F.inf false) c = F.fin 1 := rfl

@[simp] theorem isnanb_fin (x : ℝ) : isnanb (F.fin x) = false := rfl

@[simp] theorem isnanb_inf (b : Bool) : isnanb (F.inf b) = false := rfl

@[simp] theorem isnanb_nan : isnanb F.nan = true := rfl

@[simp] theorem fixnan_fin (x : ℝ) : fixnan (F.fin x) = F.fin x := rfl

@[simp] theorem fixnan_inf (b : Bool) : fixnan (F.inf b) = F.inf b := rfl

@[simp] theorem fixnan_nan : fixnan F.nan = F.fin 1 := rfl

@[simp] theorem fltF_fin_fin (a b : ℝ) : fltF (F.fin a) (F.fin b) ↔ a < b := Iff.rfl

@[simp] theorem fin_injEq (a b : ℝ) : F.fin a = F.fin b ↔ a = b := by
  constructor
  · intro h
    injection h
  · intro h
    rw [h]

/-! ### The escape-probability substitution, element by element -/

theorem subRaw_fin_zero : subRaw (F.fin 0) = F.nan := by
  have h1 : ¬(1e-4 : ℝ) < 0 := by norm_num
  have h2 : (0 : ℝ) < 1e-4 := by norm_num
  simp [subRaw, fgtf_fin_of_not_lt h1, fltf_fin_of_lt h2, Real.exp_zero]

theorem subRaw_fin_of_ne {x : ℝ} (hx : x ≠ 0) :
    subRaw (F.fin x) = F.fin ((1 - Real.exp (-x)) / x *
      (if 1e-4 < x then (1 : ℝ) else 0) + (if x < 1e-4 then (1 : ℝ) else 0)) := by
  rw [subRaw]
  rw [fneg_fin, fexp_fin, fsub_fin_fin, fdiv_fin_fin _ hx]
  rcases lt_or_le (1e-4 : ℝ) x with h | h
  · rw [fgtf_fin_of_lt h, fltf_fin_of_not_lt (not_lt.mpr (le_of_lt (by linarith)))]
    rw [if_pos h, if_neg (not_lt.mpr (le_of_lt (by linarith)))]
    simp
  · rw [fgtf_fin_of_not_lt (not_lt.mpr h)]
    rw [if_neg (not_lt.mpr h)]
    rcases lt_or_le x (1e-4 : ℝ) with h' | h'
    · rw [fltf_fin_of_lt h', if_pos h']
      simp
    · rw [fltf_fin_of_not_lt (not_lt.mpr h'), if_neg (not_lt.mpr h')]
      simp

/-- Below the threshold the substitution is exactly `1` (including the
`x = 0` case, which goes through the `0/0 = nan` route and the
`nan → 1.0` replacement). -/
theorem subElem_fin_of_lt {x : ℝ} (h : x < 1e-4) : subElem (F.fin x) = F.fin 1 := by
  rcases eq_or_ne x 0 with rfl | hx
  · rw [subElem, subRaw_fin_zero, fixnan_nan]
  · rw [subElem, subRaw_fin_of_ne hx, fixnan_fin]
    rw [if_neg (not_lt.mpr (le_of_lt h)), if_pos h]
    norm_num

/-- Above the threshold the substitution is `(1 - exp(-x))/x`. -/
theorem subElem_fin_of_gt {x : ℝ} (h : 1e-4 < x) :
    subElem (F.fin x) = F.fin ((1 - Real.exp (-x)) / x) := by
  have hx : x ≠ 0 := ne_of_gt ((by norm_num : (0 : ℝ) < 1e-4).trans h)
  rw [subElem, subRaw_fin_of_ne hx, fixnan_fin]
  rw [if_pos h, if_neg (not_lt.mpr (le_of_lt h))]
  norm_num

/-- At the threshold `x = 1e-4` exactly, both masks are false and the
substitution is `0`. -/
theorem subElem_fin_boundary : subElem (F.fin 1e-4) = F.fin 0 := by
  have hx : (1e-4 : ℝ) ≠ 0 := by norm_num
  rw [subElem, subRaw_fin_of_ne hx, fixnan_fin]
  rw [if_neg (lt_irrefl (1e-4 : ℝ))]
  norm_num

theorem subElem_inf_pos : subElem (F.inf true) = F.fin 0 := by
  rw [subElem, subRaw]
  norm_num

theorem subElem_inf_neg : subElem (F.inf false) = F.fin 1 := by
  rw [subElem, subRaw]
  norm_num

theorem subElem_nan : subElem F.nan = F.fin 1 := by
  rw [subElem, subRaw]
  norm_num

/-- The substitution step always yields a finite value. -/
theorem subElem_isFin (x : F) : ∃ r : ℝ, subElem x = F.fin r := by
  cases x with
  | fin x =>
    rcases lt_trichotomy x (1e-4 : ℝ) with h | h | h
    · exact ⟨1, subElem_fin_of_lt h⟩
    · exact ⟨0, h ▸ subElem_fin_boundary⟩
    · exact ⟨_, subElem_fin_of_gt h⟩
  | inf b =>
    cases b
    · exact ⟨1, subElem_inf_neg⟩
    · exact ⟨0, subElem_inf_pos⟩
  | nan => exact ⟨1, subElem_nan⟩

/-! ### The Gaussian optical-depth profile, element by element -/

theorem taufEl_of_ne {sigma : ℝ} (tau vc v : ℝ) (hs : sigma ≠ 0) :
    taufEl tau vc sigma v =
      F.fin (tau * Real.exp (-((v - vc) / sigma * ((v - vc) / sigma) / 2))) := by
  rw [taufEl, fdiv_fin_fin _ hs, fsq_fin, fdiv_fin_fin _ (two_ne_zero), fneg_fin,
    fexp_fin, fmul_fin_fin]

theorem taufEl_sigma_zero_center (tau vc : ℝ) : taufEl tau vc 0 vc = F.nan := by
  rw [taufEl, sub_self, fdiv_zero_zero, fsq_nan, fdiv_nan_left, fneg_nan, fexp_nan,
    fmul_nan_right]

theorem taufEl_sigma_zero_off {vc v : ℝ} (tau : ℝ) (hv : v ≠ vc) :
    taufEl tau vc 0 v = F.fin (tau * 0) := by
  rw [taufEl]
  have h2 : (0 : ℝ) < 2 := by norm_num
  rcases (sub_ne_zero.mpr hv).lt_or_lt with h | h
  · rw [fdiv_neg_zero h, fsq_inf, fdiv, if_neg h2.ne', if_pos h2]
    simp
  · rw [fdiv_pos_zero h, fsq_inf, fdiv, if_neg h2.ne', if_pos h2]
    simp

/-- A profile element is never an infinity. -/
theorem taufEl_fin_or_nan (tau vc sigma v : ℝ) :
    (∃ r : ℝ, taufEl tau vc sigma v = F.fin r) ∨ taufEl tau vc sigma v = F.nan := by
  rcases eq_or_ne sigma 0 with rfl | hs
  · rcases eq_or_ne v vc with rfl | hv
    · exact Or.inr (taufEl_sigma_zero_center tau v)
    · exact Or.inl ⟨_, taufEl_sigma_zero_off tau hv⟩
  · exact Or.inl ⟨_, taufEl_of_ne tau vc v hs⟩

/-! ### The radiation helper function `jfunc` -/

theorem jfunc_of_ne {t nu : ℝ} (ht : t ≠ 0) (hj : H * nu / K ≠ 0) :
    jfunc t nu = F.fin (H * nu / K / (Real.exp (H * nu / K / t) - 1)) := by
  have hd : Real.exp (H * nu / K / t) - 1 ≠ 0 := by
    rw [sub_ne_zero]
    rw [Ne, Real.exp_eq_one_iff]
    exact div_ne_zero hj ht
  rw [jfunc]
  rw [fdiv_fin_fin _ ht, fexp_fin, fsub_fin_fin, fdiv_fin_fin _ hd]

theorem jfunc_zero_of_pos {nu : ℝ} (h : 0 < H * nu / K) : jfunc 0 nu = F.fin 0 := by
  rw [jfunc]
  rw [fdiv_pos_zero h, fexp_inf_pos, fsub_inf_fin, fdiv_fin_inf]

theorem jfunc_zero_of_neg {nu : ℝ} (h : H * nu / K < 0) :
    jfunc 0 nu = F.fin (-(H * nu / K)) := by
  rw [jfunc]
  rw [fdiv_neg_zero h, fexp_inf_neg, fsub_fin_fin, fdiv_fin_fin _ (by norm_num : (0 : ℝ) - 1 ≠ 0)]
  rw [show (0 : ℝ) - 1 = -1 by norm_num, div_neg, div_one]

/-- When the frequency term `to = H*nu/K` vanishes, `jfunc` is `nan`
(`0/0`), whatever the temperature. -/
theorem jfunc_nan_of_zero {t nu : ℝ} (hj : H * nu / K = 0) : jfunc t nu = F.nan := by
  rw [jfunc]
  rcases eq_or_ne t 0 with rfl | ht
  · rw [hj, fdiv_zero_zero, fexp_nan, fsub_nan_left, fdiv_nan_right]
  · rw [hj, fdiv_fin_fin _ ht, zero_div, fexp_fin, Real.exp_zero, fsub_fin_fin, sub_self,
      fdiv_zero_zero]

/-- `jfunc` computes `jr` whenever `to = H*nu/K ≠ 0`. -/
theorem jfunc_eq_jr {t nu : ℝ} (hj : H * nu / K ≠ 0) :
    jfunc t nu = F.fin (jr (H * nu / K) t) := by
  rcases eq_or_ne t 0 with rfl | ht
  · rcases hj.lt_or_lt with h | h
    · rw [jfunc_zero_of_neg h, jr, if_pos rfl, if_neg (not_lt.mpr h.le)]
    · rw [jfunc_zero_of_pos h, jr, if_pos rfl, if_pos h]
  · rw [jfunc_of_ne ht hj, jr, if_neg ht]

/-- `jfunc` never evaluates to an infinity. -/
theorem jfunc_fin_or_nan (t nu : ℝ) :
    (∃ r : ℝ, jfunc t nu = F.fin r) ∨ jfunc t nu = F.nan := by
  rcases eq_or_ne (H * nu / K) 0 with hj | hj
  · exact Or.inr (jfunc_nan_of_zero hj)
  · exact Or.inl ⟨_, jfunc_eq_jr hj⟩

/-- The IEEE evaluation of `to/(exp(to/t)-1)` is strictly increasing in
the temperature `t`, for any fixed nonzero `to = c`. -/
theorem jr_lt_jr {c t1 t2 : ℝ} (hc : c ≠ 0) (h : t1 < t2) : jr c t1 < jr c t2 := by
  rcases hc.lt_or_lt with hcneg | hcpos
  · -- c < 0
    have hnegc : (0 : ℝ) < -c := neg_pos.mpr hcneg
    have jr0 : jr c 0 = -c := by rw [jr, if_pos rfl, if_neg (not_lt.mpr hcneg.le)]
    have jrpos : ∀ t, 0 < t → -c < jr c t := by
      intro t ht
      have hq : c / t < 0 := div_neg_of_neg_of_pos hcneg ht
      have hd0 : Real.exp (c / t) - 1 < 0 := by
        have := Real.exp_lt_one_iff.mpr hq
        linarith
      have hdm : (-1 : ℝ) < Real.exp (c / t) - 1 := by linarith [Real.exp_pos (c / t)]
      have hinv : (Real.exp (c / t) - 1)⁻¹ < -1 := by
        have h1 : (Real.exp (c / t) - 1)⁻¹ < (-1 : ℝ)⁻¹ :=
          (inv_lt_inv_of_neg hd0 (by norm_num)).mpr hdm
        norm_num at h1
        exact h1
      rw [jr, if_neg ht.ne', div_eq_mul_inv]
      have := mul_lt_mul_of_neg_left hinv hcneg
      rwa [mul_neg_one] at this
    have jrneg : ∀ t, t < 0 → jr c t < 0 := by
      intro t ht
      have hq : 0 < c / t := div_pos_iff.mpr (Or.inr ⟨hcneg, ht⟩)
      have hd : 0 < Real.exp (c / t) - 1 := by
        have := Real.one_lt_exp_iff.mpr hq
        linarith
      rw [jr, if_neg ht.ne]
      exact div_neg_of_neg_of_pos hcneg hd
    rcases lt_trichotomy t1 0 with h1 | h1 | h1
    · rcases lt_trichotomy t2 0 with h2 | h2 | h2
      · -- t1 < t2 < 0
        have hti : t2⁻¹ < t1⁻¹ := (inv_lt_inv_of_neg h2 h1).mpr h
        have hq : c / t1 < c / t2 := by
          rw [div_eq_mul_inv, div_eq_mul_inv]
          exact mul_lt_mul_of_neg_left hti hcneg
        have he : Real.exp (c / t1) < Real.exp (c / t2) := Real.exp_lt_exp.mpr hq
        have hd1 : 0 < Real.exp (c / t1) - 1 := by
          have := Real.one_lt_exp_iff.mpr (div_pos_iff.mpr (Or.inr ⟨hcneg, h1⟩))
          linarith
        have hd2 : 0 < Real.exp (c / t2) - 1 := by
          have := Real.one_lt_exp_iff.mpr (div_pos_iff.mpr (Or.inr ⟨hcneg, h2⟩))
          linarith
        have hinv : (Real.exp (c / t2) - 1)⁻¹ < (Real.exp (c / t1) - 1)⁻¹ :=
          (inv_lt_inv₀ hd2 hd1).mpr (by linarith)
        rw [jr, if_neg h1.ne, jr, if_neg h2.ne, div_eq_mul_inv, div_eq_mul_inv]
        exact mul_lt_mul_of_neg_left hinv hcneg
      · rw [h2, jr0]
        exact (jrneg t1 h1).trans hnegc
      · exact lt_trans (lt_trans (jrneg t1 h1) hnegc) (jrpos t2 h2)
    · rw [h1] at h
      rw [h1, jr0]
      exact jrpos t2 h
    · -- 0 < t1 < t2
      have h2 : 0 < t2 := h1.trans h
      have hti : t2⁻¹ < t1⁻¹ := (inv_lt_inv₀ h2 h1).mpr h
      have hq : c / t1 < c / t2 := by
        rw [div_eq_mul_inv, div_eq_mul_inv]
        exact mul_lt_mul_of_neg_left hti hcneg
      have he : Real.exp (c / t1) < Real.exp (c / t2) := Real.exp_lt_exp.mpr hq
      have hd1 : Real.exp (c / t1) - 1 < 0 := by
        have := Real.exp_lt_one_iff.mpr (div_neg_of_neg_of_pos hcneg h1)
        linarith
      have hd2 : Real.exp (c / t2) - 1 < 0 := by
        have := Real.exp_lt_one_iff.mpr (div_neg_of_neg_of_pos hcneg h2)
        linarith
      have hinv : (Real.exp (c / t2) - 1)⁻¹ < (Real.exp (c / t1) - 1)⁻¹ :=
        (inv_lt_inv_of_neg hd2 hd1).mpr (by linarith)
      rw [jr, if_neg h1.ne', jr, if_neg h2.ne', div_eq_mul_inv, div_eq_mul_inv]
      exact mul_lt_mul_of_neg_left hinv hcneg
  · -- 0 < c
    have jr0 : jr c 0 = 0 := by rw [jr, if_pos rfl, if_pos hcpos]
    have jrpos : ∀ t, 0 < t → 0 < jr c t := by
      intro t ht
      have hd : 0 < Real.exp (c / t) - 1 := by
        have := Real.one_lt_exp_iff.mpr (div_pos hcpos ht)
        linarith
      rw [jr, if_neg ht.ne']
      exact div_pos hcpos hd
    have jrneg : ∀ t, t < 0 → jr c t < 0 := by
      intro t ht
      have hd : Real.exp (c / t) - 1 < 0 := by
        have := Real.exp_lt_one_iff.mpr (div_neg_of_pos_of_neg hcpos ht)
        linarith
      rw [jr, if_neg ht.ne]
      exact div_neg_of_pos_of_neg hcpos hd
    rcases lt_trichotomy t1 0 with h1 | h1 | h1
    · rcases lt_trichotomy t2 0 with h2 | h2 | h2
      · -- t1 < t2 < 0
        have hti : t2⁻¹ < t1⁻¹ := (inv_lt_inv_of_neg h2 h1).mpr h
        have hq : c / t2 < c / t1 := by
          rw [div_eq_mul_inv, div_eq_mul_inv]
          exact mul_lt_mul_of_pos_left hti hcpos
        have he : Real.exp (c / t2) < Real.exp (c / t1) := Real.exp_lt_exp.mpr hq
        have hd1 : Real.exp (c / t1) - 1 < 0 := by
          have := Real.exp_lt_one_iff.mpr (div_neg_of_pos_of_neg hcpos h1)
          linarith
        have hd2 : Real.exp (c / t2) - 1 < 0 := by
          have := Real.exp_lt_one_iff.mpr (div_neg_of_pos_of_neg hcpos h2)
          linarith
        have hinv : (Real.exp (c / t1) - 1)⁻¹ < (Real.exp (c / t2) - 1)⁻¹ :=
          (inv_lt_inv_of_neg hd1 hd2).mpr (by linarith)
        rw [jr, if_neg h1.ne, jr, if_neg h2.ne, div_eq_mul_inv, div_eq_mul_inv]
        exact mul_lt_mul_of_pos_left hinv hcpos
      · rw [h2, jr0]
        exact jrneg t1 h1
      · exact (jrneg t1 h1).trans (jrpos t2 h2)
    · rw [h1] at h
      rw [h1, jr0]
      exact jrpos t2 h
    · -- 0 < t1 < t2
      have h2 : 0 < t2 := h1.trans h
      have hq : c / t2 < c / t1 := (div_lt_div_iff_of_pos_left hcpos h2 h1).mpr h
      have he : Real.exp (c / t2) < Real.exp (c / t1) := Real.exp_lt_exp.mpr hq
      have hd1 : 0 < Real.exp (c / t1) - 1 := by
        have := Real.one_lt_exp_iff.mpr (div_pos hcpos h1)
        linarith
      have hd2 : 0 < Real.exp (c / t2) - 1 := by
        have := Real.one_lt_exp_iff.mpr (div_pos hcpos h2)
        linarith
      rw [jr, if_neg h1.ne', jr, if_neg h2.ne']
      exact (div_lt_div_iff_of_pos_left hcpos hd1 hd2).mpr (by linarith)

/-! ### Model-level lemmas -/

theorem H_pos : (0 : ℝ) < H := by rw [H]; norm_num

theorem K_pos : (0 : ℝ) < K := by rw [K]; norm_num

theorem to_ne_zero {nu : ℝ} (h : nu ≠ 0) : H * nu / K ≠ 0 :=
  div_ne_zero (mul_ne_zero H_pos.ne' h) K_pos.ne'

theorem to_pos {nu : ℝ} (h : 0 < nu) : 0 < H * nu / K :=
  div_pos (mul_pos H_pos h) K_pos

theorem isnanb_eq_false_of_fin {y : F} (h : ∃ r : ℝ, y = F.fin r) : isnanb y = false := by
  obtain ⟨r, rfl⟩ := h
  rfl

/-- With a nonzero line width and a nonzero frequency sample,
every element of `hill_array` is finite. -/
theorem hill5_elem_isFin {sigma : ℝ} {p : ℝ × ℝ} (tau v_lsr v_infall tpeak TBG : ℝ)
    (hs : sigma ≠ 0) (hnu : p.2 ≠ 0) :
    ∃ r : ℝ, hill5_elem tau v_lsr v_infall sigma tpeak TBG p = F.fin r := by
  obtain ⟨s1, hs1⟩ := subElem_isFin (taufEl tau (v_lsr + v_infall) sigma p.1)
  obtain ⟨s2, hs2⟩ := subElem_isFin (taufEl tau (v_lsr - v_infall) sigma p.1)
  rw [hill5_elem, factorEl]
  rw [jfunc_eq_jr (to_ne_zero hnu), jfunc_eq_jr (to_ne_zero hnu)]
  rw [hs1, hs2, taufEl_of_ne _ _ _ hs]
  rw [fneg_fin, fexp_fin, fmul_fin_fin, fsub_fin_fin, fsub_fin_fin, fmul_fin_fin]
  exact ⟨_, rfl⟩

/-- `hill_array` contains no `nan` when the line width is nonzero and
every frequency sample is nonzero. -/
theorem hillArray_no_nan {sigma : ℝ} {xarr : List (ℝ × ℝ)} (tau v_lsr v_infall tpeak TBG : ℝ)
    (hs : sigma ≠ 0) (hfreq : ∀ p ∈ xarr, p.2 ≠ 0) :
    (hillArray xarr tau v_lsr v_infall sigma tpeak TBG).any isnanb = false := by
  rw [List.any_eq_false]
  intro y hy
  obtain ⟨p, hp, rfl⟩ := List.mem_map.mp hy
  rw [isnanb_eq_false_of_fin (hill5_elem_isFin tau v_lsr v_infall tpeak TBG hs (hfreq p hp))]
  exact Bool.false_ne_true

/-- The `ok` branch of the NaN guard. -/
theorem hill5_model_ok {xarr : List (ℝ × ℝ)} {tau v_lsr v_infall sigma tpeak TBG : ℝ}
    (h : (hillArray xarr tau v_lsr v_infall sigma tpeak TBG).any isnanb = false) :
    hill5_model xarr tau v_lsr v_infall sigma tpeak TBG =
      Except.ok (hillArray xarr tau v_lsr v_infall sigma tpeak TBG) := by
  rw [hill5_model]
  simp [h]

/-- The `error` branch of the NaN guard. -/
theorem hill5_model_error {xarr : List (ℝ × ℝ)} {tau v_lsr v_infall sigma tpeak TBG : ℝ}
    (h : (hillArray xarr tau v_lsr v_infall sigma tpeak TBG).any isnanb = true) :
    hill5_model xarr tau v_lsr v_infall sigma tpeak TBG =
      Except.error "Hill5 model has a NAN" := by
  rw [hill5_model]
  simp [h]

/-- Inversion: a returned array is exactly the computed `hill_array`,
and it contains no `nan`. -/
theorem hill5_model_ok_inv {xarr : List (ℝ × ℝ)} {tau v_lsr v_infall sigma tpeak TBG : ℝ}
    {res : List F}
    (h : hill5_model xarr tau v_lsr v_infall sigma tpeak TBG = Except.ok res) :
    res = hillArray xarr tau v_lsr v_infall sigma tpeak TBG ∧
      (hillArray xarr tau v_lsr v_infall sigma tpeak TBG).any isnanb = false := by
  by_cases hb : (hillArray xarr tau v_lsr v_infall sigma tpeak TBG).any isnanb
  · rw [hill5_model_error hb] at h
    exact absurd h (by simp)
  · rw [hill5_model_ok (Bool.eq_false_iff.mpr hb)] at h
    exact ⟨(Except.ok.injEq _ _ ▸ h).symm ▸ rfl, Bool.eq_false_iff.mpr hb⟩

theorem fixnan_of_ne {y : F} (h : y ≠ F.nan) : fixnan y = y := by
  cases y with
  | fin x => rfl
  | inf b => rfl
  | nan => exact absurd rfl h

/-- The factor `(subf - exp(-tauf)*subr)` is never an infinity. -/
theorem factorEl_fin_or_nan (tau v_lsr v_infall sigma : ℝ) (p : ℝ × ℝ) :
    (∃ r : ℝ, factorEl tau v_lsr v_infall sigma p = F.fin r) ∨
      factorEl tau v_lsr v_infall sigma p = F.nan := by
  rw [factorEl]
  obtain ⟨s1, hs1⟩ := subElem_isFin (taufEl tau (v_lsr + v_infall) sigma p.1)
  obtain ⟨s2, hs2⟩ := subElem_isFin (taufEl tau (v_lsr - v_infall) sigma p.1)
  rw [hs1, hs2]
  rcases taufEl_fin_or_nan tau (v_lsr + v_infall) sigma p.1 with ⟨tf, htf⟩ | htf
  · rw [htf, fneg_fin, fexp_fin, fmul_fin_fin, fsub_fin_fin]
    exact Or.inl ⟨_, rfl⟩
  · rw [htf, fneg_nan, fexp_nan, fmul_nan_left, fsub_nan_right]
    exact Or.inr rfl

theorem getD_map_of_lt {α β : Type} (f : α → β) (l : List α) (i : ℕ) (d : α) (e : β)
    (h : i < l.length) : (l.map f).getD i e = f (l.getD i d) := by
  induction l generalizing i with
  | nil => exact absurd h (Nat.not_lt_zero i)
  | cons a t ih =>
    cases i with
    | zero => rfl
    | succ n => exact ih n (Nat.lt_of_succ_lt_succ h)

theorem getD_mem_of_lt {α : Type} (l : List α) (i : ℕ) (d : α) (h : i < l.length) :
    l.getD i d ∈ l := by
  induction l generalizing i with
  | nil => exact absurd h (Nat.not_lt_zero i)
  | cons a t ih =>
    cases i with
    | zero => exact List.mem_cons_self a t
    | succ n => exact List.mem_cons_of_mem a (ih n (Nat.lt_of_succ_lt_succ h))

/-! ### Claims -/

/-- C10: for an input array of length zero, `hill5_model` never raises
the NaN computation error and returns an empty array, for every choice
of the five parameters and `TBG`. -/
theorem claim_empty_input (tau v_lsr v_infall sigma tpeak TBG : ℝ) :
    hill5_model [] tau v_lsr v_infall sigma tpeak TBG = Except.ok [] :=
  hill5_model_ok rfl

/-- C8: `hill5_fitter` is constructed with parameter count 5, parameter
names `[tau, v_lsr, v_infall, sigma, tpeak]` in that order, bound flags
`[(T,F),(F,F),(T,F),(T,F),(T,F)]` with bound values `0`, fit unit
`km/s`, and guess hints `[1.0, center, 1.0, width, amplitude]`. -/
theorem claim_fitter_descriptor :
    hill5_fitter.npars = 5 ∧
    hill5_fitter.parnames = ["tau", "v_lsr", "v_infall", "sigma", "tpeak"] ∧
    hill5_fitter.parlimited =
      [(true, false), (false, false), (true, false), (true, false), (true, false)] ∧
    hill5_fitter.parlimits = [(0, 0), (0, 0), (0, 0), (0, 0), (0, 0)] ∧
    hill5_fitter.fitunit = "km/s" ∧
    hill5_fitter.guess_types = [GuessHint.const 1.0, GuessHint.tag "center",
      GuessHint.const 1.0, GuessHint.tag "width", GuessHint.tag "amplitude"] ∧
    hill5_fitter.modelfunc = hill5_model :=
  ⟨rfl, rfl, rfl, rfl, rfl, rfl, rfl⟩

/-- C3: `hill5_model` raises the computation error with message
"Hill5 model has a NAN" iff some element of the final computed array is
NaN; in that case no array is returned, and otherwise the computed array
is returned unchanged. -/
theorem claim_nan_guard (xarr : List (ℝ × ℝ)) (tau v_lsr v_infall sigma tpeak TBG : ℝ) :
    (hill5_model xarr tau v_lsr v_infall sigma tpeak TBG =
        Except.error "Hill5 model has a NAN" ↔
      (hillArray xarr tau v_lsr v_infall sigma tpeak TBG).any isnanb = true) ∧
    (hill5_model xarr tau v_lsr v_infall sigma tpeak TBG =
        Except.ok (hillArray xarr tau v_lsr v_infall sigma tpeak TBG) ↔
      (hillArray xarr tau v_lsr v_infall sigma tpeak TBG).any isnanb = false) ∧
    (hill5_model xarr tau v_lsr v_infall sigma tpeak TBG =
        Except.error "Hill5 model has a NAN" ∨
      hill5_model xarr tau v_lsr v_infall sigma tpeak TBG =
        Except.ok (hillArray xarr tau v_lsr v_infall sigma tpeak TBG)) := by
  by_cases hb : (hillArray xarr tau v_lsr v_infall sigma tpeak TBG).any isnanb = true
  · have he := hill5_model_error hb
    refine ⟨⟨fun _ => hb, fun _ => he⟩, ⟨?_, ?_⟩, Or.inl he⟩
    · intro h
      rw [he] at h
      exact absurd h (by simp)
    · intro h
      rw [h] at hb
      exact Bool.noConfusion hb
  · have hb' := Bool.eq_false_iff.mpr hb
    have ho := hill5_model_ok hb'
    refine ⟨⟨?_, fun h => absurd h hb⟩, ⟨fun _ => hb', fun _ => ho⟩, Or.inr ho⟩
    intro h
    rw [ho] at h
    exact absurd h (by simp)

/-- C2 counterexample: a profile element exactly equal to the threshold
`1e-4` is attainable (`tau = 1e-4`, sample at the line centre), and there
the substitution yields `0`, not the `1` claimed for `x ≤ 1e-4`. -/
theorem claim_sub_boundary_cex :
    taufEl 1e-4 0 1 0 = F.fin 1e-4 ∧
    (1e-4 : ℝ) ≤ 1e-4 ∧
    subElem (F.fin 1e-4) = F.fin 0 ∧
    subElem (F.fin 1e-4) ≠ F.fin 1 := by
  refine ⟨?_, le_refl _, subElem_fin_boundary, ?_⟩
  · rw [taufEl_of_ne _ _ _ one_ne_zero]
    norm_num [Real.exp_zero]
  · rw [subElem_fin_boundary]
    intro hcon
    rw [fin_injEq] at hcon
    norm_num at hcon

/-- C2 (amended): the escape-probability substitution is applied
element-wise and independently to each profile element `x`:
`sub(x) = (1-exp(-x))/x` where `x > 1e-4`, `sub(x) = 1` where
`x < 1e-4` (including `x = 0` via the nan replacement), and
`sub(x) = 0` at the exact boundary `x = 1e-4`, where both masks of
line 47 are false. -/
theorem claim_sub_piecewise (x : ℝ) :
    (1e-4 < x → subElem (F.fin x) = F.fin ((1 - Real.exp (-x)) / x)) ∧
    (x < 1e-4 → subElem (F.fin x) = F.fin 1) ∧
    (x = 1e-4 → subElem (F.fin x) = F.fin 0) :=
  ⟨subElem_fin_of_gt, subElem_fin_of_lt, fun h => h ▸ subElem_fin_boundary⟩

/-- C2 witness: the amended piecewise description at the concrete points
`x = 1`, `x = 0` and `x = 1e-4`. -/
theorem claim_sub_piecewise_witness :
    subElem (F.fin 1) = F.fin ((1 - Real.exp (-1)) / 1) ∧
    subElem (F.fin 0) = F.fin 1 ∧
    subElem (F.fin 1e-4) = F.fin 0 :=
  ⟨(claim_sub_piecewise 1).1 (by norm_num),
   (claim_sub_piecewise 0).2.1 (by norm_num),
   (claim_sub_piecewise 1e-4).2.2 rfl⟩

/-- C4: for every nonzero temperature `t` and nonzero frequency `nu`,
`jfunc(t, nu) = (h*nu/k)/(exp(h*nu/(k*t)) - 1)` with the exact constants
`h = 6.6260755e-27` and `k = 1.380658e-16`; no bounds check is applied
to `t` (negative temperatures included). -/
theorem claim_jfunc_formula (t nu : ℝ) (ht : t ≠ 0) (hnu : nu ≠ 0) :
    jfunc t nu = F.fin ((6.6260755e-27 * nu / 1.380658e-16) /
      (Real.exp (6.6260755e-27 * nu / (1.380658e-16 * t)) - 1)) := by
  rw [jfunc_of_ne ht (to_ne_zero hnu)]
  have hdd : H * nu / K / t = H * nu / (K * t) := div_div _ _ _
  rw [hdd]
  simp only [H, K]

/-- C4 witness: the formula at `t = 1`, `nu = 1`. -/
theorem claim_jfunc_formula_witness :
    jfunc 1 1 = F.fin ((6.6260755e-27 * 1 / 1.380658e-16) /
      (Real.exp (6.6260755e-27 * 1 / (1.380658e-16 * 1)) - 1)) :=
  claim_jfunc_formula 1 1 one_ne_zero one_ne_zero

/-- C9: after the substitution step, every NaN element of `subf`/`subr`
is replaced by exactly `1.0` before the final array is computed: the
replacement maps a raw NaN to `1.0`, leaves non-NaN raw values
unchanged, and the substitution used in the model is never NaN. -/
theorem claim_sub_nan_replacement (x : F) :
    subElem x = fixnan (subRaw x) ∧
    (subRaw x = F.nan → subElem x = F.fin 1) ∧
    (subRaw x ≠ F.nan → subElem x = subRaw x) ∧
    subElem x ≠ F.nan := by
  refine ⟨rfl, ?_, ?_, ?_⟩
  · intro h
    rw [subElem, h, fixnan_nan]
  · intro h
    rw [subElem, fixnan_of_ne h]
  · obtain ⟨r, hr⟩ := subElem_isFin x
    rw [hr]
    exact fun hcon => F.noConfusion hcon

/-- C9 witness: the replacement at the concrete raw-NaN input `x = 0`
(where line 47 computes `0/0`), and pass-through at `x = 1`. -/
theorem claim_sub_nan_replacement_witness :
    subElem (F.fin 0) = F.fin 1 ∧ subElem (F.fin 1) = subRaw (F.fin 1) := by
  constructor
  · exact (claim_sub_nan_replacement (F.fin 0)).2.1 subRaw_fin_zero
  · refine (claim_sub_nan_replacement (F.fin 1)).2.2.1 ?_
    rw [subRaw_fin_of_ne one_ne_zero]
    exact fun hcon => F.noConfusion hcon

/-- The concrete one-sample input `(v, freq) = (0, 1)` has no zero
frequency. -/
theorem xc_freq_ne : ∀ p ∈ [((0 : ℝ), (1 : ℝ))], p.2 ≠ 0 := by
  intro p hp
  rw [List.mem_singleton] at hp
  rw [hp]
  norm_num

theorem xc_ok1 : hill5_model [((0 : ℝ), (1 : ℝ))] 1 0 0 1 1 2.73 =
    Except.ok (hillArray [((0 : ℝ), (1 : ℝ))] 1 0 0 1 1 2.73) :=
  hill5_model_ok (hillArray_no_nan 1 0 0 1 2.73 (one_ne_zero : (1 : ℝ) ≠ 0) xc_freq_ne)

/-- C1: whenever `hill5_model` returns an array, each element equals
`(J(tpeak, freq) - J(TBG, freq)) * (subf - exp(-tauf)*subr)` with the
Gaussian optical-depth profiles centred at `v_lsr ± v_infall` over the
km/s view and the escape-probability substitutions applied to them. -/
theorem claim_result_elements (xarr : List (ℝ × ℝ)) (tau v_lsr v_infall sigma tpeak TBG : ℝ)
    (res : List F)
    (h : hill5_model xarr tau v_lsr v_infall sigma tpeak TBG = Except.ok res) :
    res = xarr.map (fun p =>
      fmul (fsub (jfunc tpeak p.2) (jfunc TBG p.2))
        (fsub (subElem (taufEl tau (v_lsr + v_infall) sigma p.1))
          (fmul (fexp (fneg (taufEl tau (v_lsr + v_infall) sigma p.1)))
            (subElem (taufEl tau (v_lsr - v_infall) sigma p.1))))) := by
  obtain ⟨hres, -⟩ := hill5_model_ok_inv h
  rw [hres, hillArray]
  rfl

/-- C1 witness: the element formula at the concrete one-sample input. -/
theorem claim_result_elements_witness :
    hillArray [((0 : ℝ), (1 : ℝ))] 1 0 0 1 1 2.73 = [((0 : ℝ), (1 : ℝ))].map (fun p =>
      fmul (fsub (jfunc 1 p.2) (jfunc 2.73 p.2))
        (fsub (subElem (taufEl 1 (0 + 0) 1 p.1))
          (fmul (fexp (fneg (taufEl 1 (0 + 0) 1 p.1)))
            (subElem (taufEl 1 (0 - 0) 1 p.1))))) :=
  claim_result_elements _ 1 0 0 1 1 2.73 _ xc_ok1

/-- C5 counterexample: with `sigma = 0` — permitted by the claim's
`sigma ≥ 0` — and a velocity sample at the line centre, the profile
computes `0/0 = nan` and the model raises instead of returning a finite
array (`tau = 1 ≥ 0`, `v_infall = 0 ≥ 0`, `tpeak = 1 ≥ 0`). -/
theorem claim_finite_cex :
    hill5_model [((0 : ℝ), (1 : ℝ))] 1 0 0 0 1 2.73 =
      Except.error "Hill5 model has a NAN" := by
  apply hill5_model_error
  have helem : hill5_elem 1 0 0 0 1 2.73 ((0 : ℝ), (1 : ℝ)) = F.nan := by
    rw [hill5_elem, factorEl]
    norm_num
    rw [taufEl_sigma_zero_center]
    rw [subElem_nan, fneg_nan, fexp_nan, fmul_nan_left, fsub_nan_right, fmul_nan_right]
  rw [hillArray]
  simp [helem]

/-- C5 (amended): for `tau ≥ 0`, `v_infall ≥ 0`, `sigma > 0` (strict:
the counterexample shows `sigma = 0` can raise), `tpeak ≥ 0`, and inputs
whose frequency view has no zero element (a zero frequency makes `jfunc`
compute `0/0 = nan`), the model returns an array of the input's length
in which every element is finite, for every `v_lsr` and `TBG`. -/
theorem claim_finite_output (xarr : List (ℝ × ℝ)) (tau v_lsr v_infall sigma tpeak TBG : ℝ)
    (_htau : 0 ≤ tau) (_hinf : 0 ≤ v_infall) (hsig : 0 < sigma) (_htp : 0 ≤ tpeak)
    (hfreq : ∀ p ∈ xarr, p.2 ≠ 0) :
    hill5_model xarr tau v_lsr v_infall sigma tpeak TBG =
      Except.ok (hillArray xarr tau v_lsr v_infall sigma tpeak TBG) ∧
    (hillArray xarr tau v_lsr v_infall sigma tpeak TBG).length = xarr.length ∧
    ∀ y ∈ hillArray xarr tau v_lsr v_infall sigma tpeak TBG, ∃ r : ℝ, y = F.fin r := by
  refine ⟨hill5_model_ok (hillArray_no_nan tau v_lsr v_infall tpeak TBG hsig.ne' hfreq),
    List.length_map _ _, ?_⟩
  intro y hy
  obtain ⟨p, hp, rfl⟩ := List.mem_map.mp hy
  exact hill5_elem_isFin tau v_lsr v_infall tpeak TBG hsig.ne' (hfreq p hp)

/-- C5 witness: the amended claim at a concrete input. -/
theorem claim_finite_output_witness :
    hill5_model [((0 : ℝ), (1 : ℝ))] 1 0 0 1 1 2.73 =
      Except.ok (hillArray [((0 : ℝ), (1 : ℝ))] 1 0 0 1 1 2.73) ∧
    (hillArray [((0 : ℝ), (1 : ℝ))] 1 0 0 1 1 2.73).length = [((0 : ℝ), (1 : ℝ))].length ∧
    ∀ y ∈ hillArray [((0 : ℝ), (1 : ℝ))] 1 0 0 1 1 2.73, ∃ r : ℝ, y = F.fin r :=
  claim_finite_output _ 1 0 0 1 1 2.73 (by norm_num) (by norm_num) (by norm_num)
    (by norm_num) xc_freq_ne

/-- C6: with `v_infall = 0` the forward and backward profiles coincide
element-wise, and the returned result is the symmetric expression in the
single profile centred at `v_lsr` — a function of `v_lsr`, `sigma`,
`tau`, `tpeak` (and `TBG`) only, with no dependence on an infall
direction. -/
theorem claim_symmetry (xarr : List (ℝ × ℝ)) (tau v_lsr sigma tpeak TBG : ℝ) (res : List F) :
    (xarr.map (fun p => taufEl tau (v_lsr + 0) sigma p.1) =
      xarr.map (fun p => taufEl tau (v_lsr - 0) sigma p.1)) ∧
    (hill5_model xarr tau v_lsr 0 sigma tpeak TBG = Except.ok res →
      res = xarr.map (fun p =>
        fmul (fsub (jfunc tpeak p.2) (jfunc TBG p.2))
          (fsub (subElem (taufEl tau v_lsr sigma p.1))
            (fmul (fexp (fneg (taufEl tau v_lsr sigma p.1)))
              (subElem (taufEl tau v_lsr sigma p.1)))))) := by
  constructor
  · simp only [add_zero, sub_zero]
  · intro h
    obtain ⟨hres, -⟩ := hill5_model_ok_inv h
    have hfun : hill5_elem tau v_lsr 0 sigma tpeak TBG = (fun p : ℝ × ℝ =>
        fmul (fsub (jfunc tpeak p.2) (jfunc TBG p.2))
          (fsub (subElem (taufEl tau v_lsr sigma p.1))
            (fmul (fexp (fneg (taufEl tau v_lsr sigma p.1)))
              (subElem (taufEl tau v_lsr sigma p.1))))) := by
      funext p
      rw [hill5_elem, factorEl, add_zero, sub_zero]
    rw [hres, hillArray, hfun]

/-- C6 witness: the symmetric result formula at the concrete one-sample
input with `v_infall = 0`. -/
theorem claim_symmetry_witness :
    hillArray [((0 : ℝ), (1 : ℝ))] 1 0 0 1 1 2.73 = [((0 : ℝ), (1 : ℝ))].map (fun p =>
      fmul (fsub (jfunc 1 p.2) (jfunc 2.73 p.2))
        (fsub (subElem (taufEl 1 0 1 p.1))
          (fmul (fexp (fneg (taufEl 1 0 1 p.1))) (subElem (taufEl 1 0 1 p.1))))) :=
  (claim_symmetry [((0 : ℝ), (1 : ℝ))] 1 0 1 1 2.73 _).2 xc_ok1

/-- C7: holding `xarr`, `tau`, `v_lsr`, `v_infall`, `sigma` and `TBG`
fixed, for every pair `tpeak1 < tpeak2` for which the model returns, at
every sample index where the factor `(subf - exp(-tauf)*subr)` is
strictly positive, the output element for `tpeak2` is strictly greater
than the one for `tpeak1`. -/
theorem claim_tpeak_mono (xarr : List (ℝ × ℝ))
    (tau v_lsr v_infall sigma TBG tpeak1 tpeak2 : ℝ) (res1 res2 : List F) (i : ℕ)
    (h12 : tpeak1 < tpeak2)
    (h1 : hill5_model xarr tau v_lsr v_infall sigma tpeak1 TBG = Except.ok res1)
    (h2 : hill5_model xarr tau v_lsr v_infall sigma tpeak2 TBG = Except.ok res2)
    (hi : i < xarr.length)
    (hfac : fltF (F.fin 0) (factorEl tau v_lsr v_infall sigma (xarr.getD i (0, 0)))) :
    fltF (res1.getD i F.nan) (res2.getD i F.nan) := by
  obtain ⟨hr1, hn1⟩ := hill5_model_ok_inv h1
  obtain ⟨hr2, hn2⟩ := hill5_model_ok_inv h2
  have hg1 : res1.getD i F.nan =
      hill5_elem tau v_lsr v_infall sigma tpeak1 TBG (xarr.getD i (0, 0)) := by
    rw [hr1, hillArray]
    exact getD_map_of_lt _ _ _ (0, 0) _ hi
  have hg2 : res2.getD i F.nan =
      hill5_elem tau v_lsr v_infall sigma tpeak2 TBG (xarr.getD i (0, 0)) := by
    rw [hr2, hillArray]
    exact getD_map_of_lt _ _ _ (0, 0) _ hi
  have hmem : hill5_elem tau v_lsr v_infall sigma tpeak1 TBG (xarr.getD i (0, 0)) ∈
      hillArray xarr tau v_lsr v_infall sigma tpeak1 TBG :=
    List.mem_map_of_mem _ (getD_mem_of_lt _ _ _ hi)
  have hnn1 : isnanb (hill5_elem tau v_lsr v_infall sigma tpeak1 TBG (xarr.getD i (0, 0))) =
      false := Bool.eq_false_iff.mpr (List.any_eq_false.mp hn1 _ hmem)
  obtain ⟨cfa, hcfa⟩ : ∃ r : ℝ,
      factorEl tau v_lsr v_infall sigma (xarr.getD i (0, 0)) = F.fin r := by
    rcases factorEl_fin_or_nan tau v_lsr v_infall sigma (xarr.getD i (0, 0)) with hf | hf
    · exact hf
    · rw [hf] at hfac
      exact absurd hfac id
  have hpos : 0 < cfa := by
    rw [hcfa] at hfac
    exact hfac
  by_cases hto : H * (xarr.getD i (0, 0)).2 / K = 0
  · exfalso
    have : hill5_elem tau v_lsr v_infall sigma tpeak1 TBG (xarr.getD i (0, 0)) = F.nan := by
      rw [hill5_elem, jfunc_nan_of_zero hto, fsub_nan_left, fmul_nan_left]
    rw [this] at hnn1
    exact Bool.noConfusion hnn1
  · rw [hg1, hg2, hill5_elem, hill5_elem, hcfa]
    rw [@jfunc_eq_jr tpeak1 _ hto, @jfunc_eq_jr tpeak2 _ hto, @jfunc_eq_jr TBG _ hto]
    rw [fsub_fin_fin, fsub_fin_fin, fmul_fin_fin, fmul_fin_fin, fltF_fin_fin]
    exact mul_lt_mul_of_pos_right (sub_lt_sub_right (jr_lt_jr hto h12) _) hpos

/-- The factor at the concrete one-sample input is the strictly positive
finite value `(1-exp(-1))/1 · (1-exp(-1))`. -/
theorem xc_factor_pos :
    fltF (F.fin 0) (factorEl 1 0 0 1 ([((0 : ℝ), (1 : ℝ))].getD 0 (0, 0))) := by
  have hp : [((0 : ℝ), (1 : ℝ))].getD 0 (0, 0) = ((0 : ℝ), (1 : ℝ)) := rfl
  rw [hp, factorEl]
  have htauf : taufEl 1 (0 + 0) 1 (((0 : ℝ), (1 : ℝ)) : ℝ × ℝ).1 = F.fin 1 := by
    rw [taufEl_of_ne _ _ _ (one_ne_zero : (1 : ℝ) ≠ 0)]
    norm_num [Real.exp_zero]
  have htaur : taufEl 1 (0 - 0) 1 (((0 : ℝ), (1 : ℝ)) : ℝ × ℝ).1 = F.fin 1 := by
    rw [taufEl_of_ne _ _ _ (one_ne_zero : (1 : ℝ) ≠ 0)]
    norm_num [Real.exp_zero]
  rw [htauf, htaur, subElem_fin_of_gt (by norm_num : (1e-4 : ℝ) < 1)]
  rw [fneg_fin, fexp_fin, fmul_fin_fin, fsub_fin_fin, fltF_fin_fin]
  have he : Real.exp (-1) < 1 := Real.exp_lt_one_iff.mpr (by norm_num)
  have hs0 : 0 < 1 - Real.exp (-1) := by linarith
  rw [div_one]
  nlinarith [mul_pos hs0 hs0]

/-- A returning evaluation of the concrete input at `tpeak = 2`. -/
theorem xc_ok2 : hill5_model [((0 : ℝ), (1 : ℝ))] 1 0 0 1 2 2.73 =
    Except.ok (hillArray [((0 : ℝ), (1 : ℝ))] 1 0 0 1 2 2.73) :=
  hill5_model_ok (hillArray_no_nan 1 0 0 2 2.73 (one_ne_zero : (1 : ℝ) ≠ 0) xc_freq_ne)

/-- C7 witness: at the concrete one-sample input the output strictly
increases when `tpeak` goes from `1` to `2`. -/
theorem claim_tpeak_mono_witness :
    fltF ((hillArray [((0 : ℝ), (1 : ℝ))] 1 0 0 1 1 2.73).getD 0 F.nan)
      ((hillArray [((0 : ℝ), (1 : ℝ))] 1 0 0 1 2 2.73).getD 0 F.nan) :=
  claim_tpeak_mono [((0 : ℝ), (1 : ℝ))] 1 0 0 1 2.73 1 2 _ _ 0
    (by norm_num) xc_ok1 xc_ok2 (by norm_num) xc_factor_pos

end Hill5
